import Mathlib

/-!
Verification of `haystack.components.converters.json.JSONToDocument`.

The component converts JSON sources into Documents: per source it resolves
bytes, parses JSON, applies a compiled jq query, and for each matched item
resolves a content string and additional metadata, merging three metadata
layers into each produced Document.

External collaborators (the Python `jq` binding, `json.loads`,
`get_bytestream_from_source`, `normalize_metadata`) are not part of the
source tree; they are modelled from the spec as noted on their definitions.
-/

namespace JSONConv

/-- A JSON value as produced by standard JSON parsing.  Numbers are modelled
as integers (the claims under verification involve only integer numbers). -/
inductive JSONValue where
  | null
  | bool (b : Bool)
  | num (n : Int)
  | str (s : String)
  | arr (xs : List JSONValue)
  | obj (fields : List (String × JSONValue))

/-- A Python dict with string keys, modelled as an insertion-ordered
association list.  Dicts built by the code under verification always have
unique keys. -/
abbrev Dict := List (String × JSONValue)

/-- First-match lookup, the semantics of `d[k]` / `d.get(k)` on a dict. -/
def dictGet (d : Dict) (k : String) : Option JSONValue :=
  match d with
  | [] => none
  | (k', v) :: rest => if k' = k then some v else dictGet rest k

/-- Python dict insertion (`d[k] = v`): an existing key keeps its position
and gets the new value; a new key is appended at the end. -/
def dictInsert (d : Dict) (k : String) (v : JSONValue) : Dict :=
  match d with
  | [] => [(k, v)]
  | (k', v') :: rest => if k' = k then (k, v) :: rest else (k', v') :: dictInsert rest k v

/-- Insert every entry of `b` into `a`, left to right. -/
def dictMerge (a b : Dict) : Dict :=
  b.foldl (fun acc p => dictInsert acc p.1 p.2) a

/-- The Python expression `{**x, **y, **z}`: a fresh dict built by inserting
the entries of the three operands left to right. -/
def merge3 (x y z : Dict) : Dict :=
  dictMerge (dictMerge (dictMerge [] x) y) z

/-- Minimal JSON string escaping as performed by `json.dumps` (covers the
characters arising in this development). -/
def jsonEscape (s : String) : String :=
  String.join (s.toList.map (fun c =>
    if c = '\\' then "\\\\"
    else if c = '"' then "\\\""
    else if c = '\n' then "\\n"
    else if c = '\t' then "\\t"
    else if c = '\r' then "\\r"
    else String.singleton c))

mutual

/-- `json.dumps` with Python's default separators. -/
def jsonDumps : JSONValue → String
  | .null => "null"
  | .bool true => "true"
  | .bool false => "false"
  | .num n => toString n
  | .str s => "\"" ++ jsonEscape s ++ "\""
  | .arr xs => "[" ++ jsonDumpsList xs ++ "]"
  | .obj fs => "\x7b" ++ jsonDumpsPairs fs ++ "\x7d"

def jsonDumpsList : List JSONValue → String
  | [] => ""
  | [x] => jsonDumps x
  | x :: xs => jsonDumps x ++ ", " ++ jsonDumpsList xs

def jsonDumpsPairs : List (String × JSONValue) → String
  | [] => ""
  | [(k, v)] => "\"" ++ jsonEscape k ++ "\": " ++ jsonDumps v
  | (k, v) :: fs => "\"" ++ jsonEscape k ++ "\": " ++ jsonDumps v ++ ", " ++ jsonDumpsPairs fs

end

mutual

/-- Python `repr` on values produced by JSON parsing (strings simplified to
single-quote delimiters without inner escaping, adequate for the inputs of
this development). -/
def pyRepr : JSONValue → String
  | .null => "None"
  | .bool true => "True"
  | .bool false => "False"
  | .num n => toString n
  | .str s => "'" ++ s ++ "'"
  | .arr xs => "[" ++ pyReprList xs ++ "]"
  | .obj fs => "\x7b" ++ pyReprPairs fs ++ "\x7d"

def pyReprList : List JSONValue → String
  | [] => ""
  | [x] => pyRepr x
  | x :: xs => pyRepr x ++ ", " ++ pyReprList xs

def pyReprPairs : List (String × JSONValue) → String
  | [] => ""
  | [(k, v)] => "'" ++ k ++ "': " ++ pyRepr v
  | (k, v) :: fs => "'" ++ k ++ "': " ++ pyRepr v ++ ", " ++ pyReprPairs fs

end

/-- Python `str` on values produced by JSON parsing: identity on strings,
`repr` otherwise. -/
def pyStr : JSONValue → String
  | .str s => s
  | v => pyRepr v

/-- Modelled from the spec: the external query engine's compiled form —
"executing a query against a JSON value yields a lazy, finite sequence of
JSON values", and evaluation "fails with an evaluation error kind when the
expression is inapplicable to the given value's shape". -/
abbrev CompiledQuery := JSONValue → Except String (List JSONValue)

/-- Modelled from the spec: the external query engine, a capability
`compile(expr) -> CompiledQuery` that "fails with a compile error kind on
malformed expressions". -/
structure Engine where
  compile : String → Except String CompiledQuery

/-- The component's state after construction, mirroring the attributes set
by `JSONToDocument.__init__`. -/
structure JSONToDocument where
  jq_schema : CompiledQuery
  content_key : Option String
  is_content_key_jq_parsable : Bool
  additional_meta : Option (List String)

/-- `JSONToDocument.__init__`: compiles `jq_schema` via the engine (a
compile failure propagates out of construction) and stores the
configuration. -/
def init (engine : Engine) (jq_schema : String) (content_key : Option String)
    (is_content_key_jq_parsable : Bool) (additional_meta_fields : Option (List String)) :
    Except String JSONToDocument := do
  let compiled ← engine.compile jq_schema
  pure ⟨compiled, content_key, is_content_key_jq_parsable, additional_meta_fields⟩

/-- The final coercion block of `JSONToDocument._get_content`: a string is
returned verbatim; a dict is serialized with `json.dumps` unless empty
(empty dict is falsy, giving the empty string); `None` gives the empty
string; anything else is passed through `str`. -/
def coerceContent (content : JSONValue) : String :=
  match content with
  | .str s => s
  | .obj fs => if fs.isEmpty then "" else jsonDumps (.obj fs)
  | .null => ""
  | v => pyStr v

/-- `JSONToDocument._get_content`.  With a jq-parsable content key the key
is compiled fresh and `.first()` is applied to the results; following the
spec's black-box description of the engine ("`.first()` returning the first
result or none"), an empty result sequence yields `None`.  With a plain
content key, `item[key]` raises `KeyError` on a missing key and `TypeError`
on a non-dict item. -/
def _get_content (engine : Engine) (self : JSONToDocument) (item : JSONValue) :
    Except String String := do
  let content ←
    match self.content_key with
    | some key =>
      if self.is_content_key_jq_parsable then do
        let q ← engine.compile key
        let rs ← q item
        pure (match rs.head? with
          | some r => r
          | none => JSONValue.null)
      else
        match item with
        | .obj fs =>
          match dictGet fs key with
          | some v => Except.ok v
          | none => Except.error ("KeyError: " ++ key)
        | _ => Except.error "TypeError: item is not a mapping"
    | none => pure item
  pure (coerceContent content)

/-- `JSONToDocument._get_additional_metadata`: an unset or empty field list
(both falsy) gives an empty dict; otherwise the dict comprehension
`{field: record.get(field) for field in fields}` is built, where a missing
key maps to `None` and a non-dict record raises `AttributeError`. -/
def _get_additional_metadata (self : JSONToDocument) (record : JSONValue) :
    Except String Dict :=
  match self.additional_meta with
  | none => Except.ok []
  | some [] => Except.ok []
  | some fields =>
    match record with
    | .obj fs =>
      Except.ok (fields.foldl (fun acc f => dictInsert acc f ((dictGet fs f).getD .null)) [])
    | _ => Except.error "AttributeError: record has no attribute get"

/-- The produced record; only `content` and `meta` are relied upon. -/
structure Document where
  content : String
  meta : Dict

/-- The per-item pipeline inside `run`'s conversion loop: resolve content,
resolve additional metadata, merge the three layers, construct the
Document. -/
def itemDoc (engine : Engine) (self : JSONToDocument) (bsMeta callerMeta : Dict)
    (item : JSONValue) : Except String Document := do
  let content ← _get_content engine self item
  let additional ← _get_additional_metadata self item
  pure ⟨content, merge3 bsMeta callerMeta additional⟩

/-- The conversion loop over a source's query results.  The Python `try`
wraps the whole loop, so the first item whose pipeline raises stops the
loop: Documents appended before the failure are kept and the error is
reported once for the source. -/
def convertItems (engine : Engine) (self : JSONToDocument) (bsMeta callerMeta : Dict) :
    List JSONValue → List Document × Option String
  | [] => ([], none)
  | item :: rest =>
    match itemDoc engine self bsMeta callerMeta item with
    | .error e => ([], some e)
    | .ok d =>
      let (ds, err) := convertItems engine self bsMeta callerMeta rest
      (d :: ds, err)

/-- Modelled from the spec: the byte-source resolver's output, "immutable
byte buffer + attached mapping of metadata".  The buffer is carried as the
outcome of `json.loads` on it (whole-buffer parsing; a parse failure is the
error case), since the JSON text decoder is external standard-library
code. -/
structure ByteStream where
  parsed : Except String JSONValue
  meta : Dict

/-- Modelled from the spec: a source reference together with the outcome of
the external byte-source resolver on it — `resolve(sourceRef) -> {data,
meta}`, which "fails with a read/IO error kind on missing or unreadable
sources". -/
structure SourceRef where
  name : String
  resolve : Except String ByteStream

/-- The output of `run`: the produced Documents plus the warnings logged
for skipped sources / aborted conversions, each naming the source and the
error. -/
structure RunOutput where
  documents : List Document
  warnings : List (String × String)

/-- The body of the source loop of `JSONToDocument.run`, for one source: a
byte-resolution failure or a parse failure logs a warning and skips the
source; otherwise the query runs and the conversion loop produces the
source's Documents, a conversion failure logging a warning after the
Documents already produced are kept. -/
def sourceStep (engine : Engine) (self : JSONToDocument) (src : SourceRef)
    (metadata : Dict) : RunOutput :=
  match src.resolve with
  | .error e => ⟨[], [(src.name, e)]⟩
  | .ok bs =>
    match bs.parsed with
    | .error e => ⟨[], [(src.name, e)]⟩
    | .ok json_data =>
      match self.jq_schema json_data with
      | .error e => ⟨[], [(src.name, e)]⟩
      | .ok items =>
        match convertItems engine self bs.meta metadata items with
        | (docs, none) => ⟨docs, []⟩
        | (docs, some e) => ⟨docs, [(src.name, e)]⟩

/-- The source loop of `JSONToDocument.run`: each source contributes its
Documents and warnings in order. -/
def processSources (engine : Engine) (self : JSONToDocument) :
    List (SourceRef × Dict) → RunOutput
  | [] => ⟨[], []⟩
  | (src, metadata) :: rest =>
    let head := sourceStep engine self src metadata
    let tail := processSources engine self rest
    ⟨head.documents ++ tail.documents, head.warnings ++ tail.warnings⟩

/-- The `meta` argument of `run`: absent, a single mapping, or one mapping
per source. -/
inductive MetaArg where
  | noMeta
  | single (d : Dict)
  | perSource (ds : List Dict)

/-- Modelled from the spec: `normalize_metadata` — "if `meta` is a single
mapping, broadcast it to every source; if a sequence, its length must equal
the source count — mismatch is a fatal configuration error for the whole
call (raised before any processing begins)". -/
def normalize_metadata (meta : MetaArg) (sources_count : Nat) : Except String (List Dict) :=
  match meta with
  | .noMeta => Except.ok (List.replicate sources_count [])
  | .single d => Except.ok (List.replicate sources_count d)
  | .perSource ds =>
    if ds.length = sources_count then Except.ok ds
    else Except.error "ValueError: length of meta must match length of sources"

/-- `JSONToDocument.run`: normalize the metadata (a mismatch raises before
any source is touched), then process the sources zipped with their
per-source metadata. -/
def run (engine : Engine) (self : JSONToDocument) (sources : List SourceRef)
    (meta : MetaArg) : Except String RunOutput := do
  let meta_list ← normalize_metadata meta sources.length
  pure (processSources engine self (sources.zip meta_list))

/-! ### Heap model of the dict objects handled by `run`

Python dicts are mutable heap objects.  To state that `run` never mutates
the caller-supplied meta dicts or the byte sources' meta dicts and that
every produced Document carries a freshly allocated meta dict, the
conversion loop is rendered once more with the dicts held in an explicit
store: an address is an index into a list of dicts, and the dict display
`{**bytestream.meta, **metadata, **additional_meta}` reads two existing
dicts and allocates a fresh one.  No operation of the loop writes to an
existing address. -/

abbrev Addr := Nat

/-- The store of dict objects; the address of a dict is its index, and
allocation appends. -/
abbrev Heap := List Dict

/-- Dereference an address. -/
def readH (h : Heap) (a : Addr) : Dict := h.getD a []

/-- Allocate a fresh dict object, returning the extended store and the
fresh address. -/
def allocH (h : Heap) (d : Dict) : Heap × Addr := (h ++ [d], h.length)

/-- A Document whose meta is a reference to a dict object in the store.
The address is kept at type `Nat` (the definition of `Addr`). -/
structure DocumentH where
  content : String
  metaAddr : Nat

/-- A ByteStream whose attached meta is a reference into the store. -/
structure ByteStreamH where
  parsed : Except String JSONValue
  metaAddr : Nat

/-- A source reference whose resolved ByteStream holds its meta by
address. -/
structure SourceRefH where
  name : String
  resolve : Except String ByteStreamH

/-- The conversion loop of `run` over the store: per successful item the
merged meta dict is freshly allocated and its address stored in the
Document. -/
def convertItemsH (engine : Engine) (self : JSONToDocument) (bsAddr cAddr : Addr)
    (h : Heap) : List JSONValue → Heap × List DocumentH × Option String
  | [] => (h, [], none)
  | item :: rest =>
    match _get_content engine self item with
    | .error e => (h, [], some e)
    | .ok content =>
      match _get_additional_metadata self item with
      | .error e => (h, [], some e)
      | .ok additional =>
        let merged := merge3 (readH h bsAddr) (readH h cAddr) additional
        let h' := (allocH h merged).1
        let a := (allocH h merged).2
        match convertItemsH engine self bsAddr cAddr h' rest with
        | (h'', ds, err) => (h'', ⟨content, a⟩ :: ds, err)

/-- One source of the loop of `run`, over the store. -/
def sourceStepH (engine : Engine) (self : JSONToDocument) (h : Heap)
    (src : SourceRefH) (cAddr : Addr) : Heap × List DocumentH × List (String × String) :=
  match src.resolve with
  | .error e => (h, [], [(src.name, e)])
  | .ok bs =>
    match bs.parsed with
    | .error e => (h, [], [(src.name, e)])
    | .ok json_data =>
      match self.jq_schema json_data with
      | .error e => (h, [], [(src.name, e)])
      | .ok items =>
        match convertItemsH engine self bs.metaAddr cAddr h items with
        | (h', docs, none) => (h', docs, [])
        | (h', docs, some e) => (h', docs, [(src.name, e)])

/-- The source loop of `run`, over the store. -/
def processSourcesH (engine : Engine) (self : JSONToDocument) (h : Heap) :
    List (SourceRefH × Addr) → Heap × List DocumentH × List (String × String)
  | [] => (h, [], [])
  | (src, cAddr) :: rest =>
    match sourceStepH engine self h src cAddr with
    | (h', docs, ws) =>
      match processSourcesH engine self h' rest with
      | (h'', ds, ws') => (h'', docs ++ ds, ws ++ ws')

/-! ### Concrete fixtures used in witnesses and counterexamples -/

/-- An engine whose compiled queries return their input unchanged. -/
def idEngine : Engine := ⟨fun _ => Except.ok (fun v => Except.ok [v])⟩

/-- A compiled query matching each element of a top-level array (the shape
of a schema such as `.data[]`). -/
def elemsQuery : CompiledQuery :=
  fun v =>
    match v with
    | .arr xs => Except.ok xs
    | v => Except.ok [v]

/-- A component configured with a plain content key `"text"`. -/
def plainKeyComp : JSONToDocument := ⟨elemsQuery, some "text", false, none⟩

/-- A component with no content selector and no additional meta fields. -/
def noSelectorComp : JSONToDocument := ⟨elemsQuery, none, false, none⟩

/-- A component with additional meta fields `["id", "name"]` in plain
mode. -/
def metaFieldsComp : JSONToDocument := ⟨elemsQuery, none, false, some ["id", "name"]⟩

/-- A source of three items of which the middle one lacks the configured
content key `"text"`. -/
def mixedKeySrc : SourceRef :=
  ⟨"mixed.json",
   Except.ok ⟨Except.ok (.arr [.obj [("text", .str "a")], .obj [("oops", .str "b")],
      .obj [("text", .str "c")]]), []⟩⟩

/-- A readable source of one string item, carrying byte-source metadata. -/
def readableSrc : SourceRef :=
  ⟨"good.json",
   Except.ok ⟨Except.ok (.arr [.str "hello"]), [("file_path", .str "good.json")]⟩⟩

/-- An unreadable source: byte resolution fails. -/
def unreadableSrc : SourceRef := ⟨"missing.json", Except.error "FileNotFoundError"⟩

/-- A readable source whose bytes are not valid JSON: parsing fails. -/
def badParseSrc : SourceRef :=
  ⟨"broken.json", Except.ok ⟨Except.error "JSONDecodeError", []⟩⟩

/-- An engine that rejects the expression `"..bad"` at compile time and
compiles anything else to the identity query. -/
def failEngine : Engine :=
  ⟨fun s =>
    if s = "..bad" then Except.error "jq compile error"
    else Except.ok (fun v => Except.ok [v])⟩

/-- A source of two plain string items. -/
def twoItemSrc : SourceRef :=
  ⟨"pair.json", Except.ok ⟨Except.ok (.arr [.str "x", .str "y"]), []⟩⟩

end JSONConv

namespace JSONConv

/-! ### Association-list lemmas about the dict model -/

theorem dictGet_dictInsert (d : Dict) (k : String) (v : JSONValue) (k' : String) :
    dictGet (dictInsert d k v) k' = if k = k' then some v else dictGet d k' := by
  induction d with
  | nil => simp [dictGet, dictInsert]
  | cons p rest ih =>
    obtain ⟨k₀, v₀⟩ := p
    by_cases hk : k₀ = k
    · subst hk
      by_cases hk' : k₀ = k'
      · subst hk'
        simp [dictGet, dictInsert]
      · simp [dictGet, dictInsert, hk']
    · by_cases hk' : k₀ = k'
      · subst hk'
        have : ¬ (k = k₀) := fun h => hk h.symm
        simp [dictGet, dictInsert, hk, this]
      · simp [dictGet, dictInsert, hk, hk', ih]

theorem dictGet_eq_some_mem {d : Dict} {k : String} {v : JSONValue}
    (h : dictGet d k = some v) : k ∈ d.map Prod.fst := by
  induction d with
  | nil => simp [dictGet] at h
  | cons p rest ih =>
    obtain ⟨k₀, v₀⟩ := p
    by_cases hk : k₀ = k
    · subst hk
      simp
    · simp [dictGet, hk] at h
      simp [ih h]

theorem dictGet_dictMerge (a b : Dict) (k : String)
    (hb : (b.map Prod.fst).Nodup) :
    dictGet (dictMerge a b) k =
      match dictGet b k with
      | some v => some v
      | none => dictGet a k := by
  induction b generalizing a with
  | nil => simp [dictMerge, dictGet]
  | cons p rest ih =>
    obtain ⟨k₀, v₀⟩ := p
    simp only [List.map_cons, List.nodup_cons] at hb
    have step : dictMerge a ((k₀, v₀) :: rest) = dictMerge (dictInsert a k₀ v₀) rest := by
      simp [dictMerge, List.foldl_cons]
    rw [step, ih _ hb.2]
    cases hrest : dictGet rest k with
    | some v =>
      have hkmem : k ∈ rest.map Prod.fst := dictGet_eq_some_mem hrest
      have hne : ¬ (k₀ = k) := by
        intro h
        subst h
        exact hb.1 hkmem
      simp [dictGet, hne, hrest]
    | none =>
      by_cases hk : k₀ = k
      · subst hk
        simp [dictGet, dictGet_dictInsert]
      · simp [dictGet, hk, hrest, dictGet_dictInsert]

theorem dictGet_merge3 (x y z : Dict) (k : String)
    (hx : (x.map Prod.fst).Nodup) (hy : (y.map Prod.fst).Nodup)
    (hz : (z.map Prod.fst).Nodup) :
    dictGet (merge3 x y z) k =
      match dictGet z k with
      | some v => some v
      | none =>
        match dictGet y k with
        | some v => some v
        | none => dictGet x k := by
  unfold merge3
  rw [dictGet_dictMerge _ _ _ hz]
  cases dictGet z k with
  | some v => rfl
  | none =>
    simp only
    rw [dictGet_dictMerge _ _ _ hy]
    cases dictGet y k with
    | some v => rfl
    | none =>
      simp only
      rw [dictGet_dictMerge _ _ _ hx]
      cases hxx : dictGet x k with
      | some v => rfl
      | none => simp [dictGet]

end JSONConv

namespace JSONConv

theorem dictGet_foldl_insert (g : String → JSONValue) (fields : List String)
    (acc : Dict) (k : String) :
    dictGet (fields.foldl (fun a f => dictInsert a f (g f)) acc) k =
      if k ∈ fields then some (g k) else dictGet acc k := by
  induction fields generalizing acc with
  | nil => simp
  | cons f rest ih =>
    simp only [List.foldl_cons]
    rw [ih]
    by_cases hr : k ∈ rest
    · simp [hr]
    · by_cases hf : f = k
      · subst hf
        simp [hr, dictGet_dictInsert]
      · have : ¬ (k = f) := fun h => hf h.symm
        simp [hr, this, hf, dictGet_dictInsert]

theorem dictInsert_not_mem (d : Dict) (k : String) (v : JSONValue)
    (h : ¬ k ∈ d.map Prod.fst) : dictInsert d k v = d ++ [(k, v)] := by
  induction d with
  | nil => simp [dictInsert]
  | cons p rest ih =>
    obtain ⟨k₀, v₀⟩ := p
    simp only [List.map_cons, List.mem_cons] at h
    push_neg at h
    have hk : ¬ (k₀ = k) := fun hh => h.1 hh.symm
    simp [dictInsert, hk, ih h.2]

theorem keys_foldl_insert (g : String → JSONValue) (fields : List String) (acc : Dict)
    (h : ∀ f ∈ fields, ¬ f ∈ acc.map Prod.fst) (hnd : fields.Nodup) :
    (fields.foldl (fun a f => dictInsert a f (g f)) acc).map Prod.fst
      = acc.map Prod.fst ++ fields := by
  induction fields generalizing acc with
  | nil => simp
  | cons f rest ih =>
    simp only [List.foldl_cons]
    rw [dictInsert_not_mem acc f (g f) (h f (by simp))]
    simp only [List.nodup_cons] at hnd
    rw [ih (acc ++ [(f, g f)])]
    · simp
    · intro f' hf'
      simp only [List.map_append, List.mem_append]
      push_neg
      refine ⟨h f' (by simp [hf']), ?_⟩
      simp only [List.map_cons, List.map_nil, List.mem_singleton]
      intro heq
      exact hnd.1 (heq ▸ hf')
    · exact hnd.2

theorem processSources_append (engine : Engine) (self : JSONToDocument)
    (xs ys : List (SourceRef × Dict)) :
    processSources engine self (xs ++ ys) =
      ⟨(processSources engine self xs).documents ++ (processSources engine self ys).documents,
       (processSources engine self xs).warnings ++ (processSources engine self ys).warnings⟩ := by
  induction xs with
  | nil => simp [processSources]
  | cons hd tl ih =>
    obtain ⟨src, m⟩ := hd
    simp [processSources, ih]

end JSONConv

namespace JSONConv

/-! ### Claims about the resolvers and the merger -/

/-- C2: every produced Document's meta is the left-to-right merge of the
byte-source metadata, then the caller-supplied per-source meta, then the
per-item resolved metadata fields, a later layer overwriting an earlier
one on an identical key; in particular byte-source meta `{a:1}`, caller
meta `{a:2,b:3}` and resolved fields `{a:4,c:5}` merge to
`{a:4,b:3,c:5}`. -/
theorem c2_meta_merge_precedence :
    (∀ (engine : Engine) (self : JSONToDocument) (bsMeta callerMeta : Dict)
        (item : JSONValue) (content : String) (additional : Dict),
        _get_content engine self item = Except.ok content →
        _get_additional_metadata self item = Except.ok additional →
        itemDoc engine self bsMeta callerMeta item
          = Except.ok ⟨content, merge3 bsMeta callerMeta additional⟩)
    ∧ (∀ (x y z : Dict) (k : String),
        (x.map Prod.fst).Nodup → (y.map Prod.fst).Nodup → (z.map Prod.fst).Nodup →
        dictGet (merge3 x y z) k =
          match dictGet z k with
          | some v => some v
          | none =>
            match dictGet y k with
            | some v => some v
            | none => dictGet x k)
    ∧ merge3 [("a", .num 1)] [("a", .num 2), ("b", .num 3)] [("a", .num 4), ("c", .num 5)]
        = [("a", .num 4), ("b", .num 3), ("c", .num 5)] := by
  refine ⟨?_, dictGet_merge3, rfl⟩
  intro engine self bsMeta callerMeta item content additional hc ha
  simp [itemDoc, hc, ha, bind, Except.bind, pure, Except.pure]

/-- Witness for C2 at concrete inputs: a no-selector item and the
precedence example from the spec. -/
theorem c2_meta_merge_precedence_witness :
    itemDoc idEngine noSelectorComp [("a", .num 1)] [("a", .num 2), ("b", .num 3)] (.str "t")
      = Except.ok ⟨"t", merge3 [("a", .num 1)] [("a", .num 2), ("b", .num 3)] []⟩
    ∧ dictGet (merge3 [("a", .num 1)] [("a", .num 2), ("b", .num 3)]
         [("a", .num 4), ("c", .num 5)]) "b" = some (.num 3) := by
  constructor
  · exact c2_meta_merge_precedence.1 idEngine noSelectorComp _ _ _ _ _ rfl rfl
  · rw [c2_meta_merge_precedence.2.1 _ _ _ "b" (by decide) (by decide) (by decide)]
    rfl

/-- C3: with no content selector configured, content resolution returns a
string verbatim, serializes a non-empty mapping as JSON, gives the empty
string on an empty mapping or null, and stringifies anything else; with a
query-expression selector the same coercion is applied to the first query
result.  In all these cases the result is a string and no error is
raised. -/
theorem c3_no_selector_coercion :
    (∀ (engine : Engine) (self : JSONToDocument), self.content_key = none →
      (∀ s, _get_content engine self (.str s) = Except.ok s)
      ∧ (∀ fs, fs ≠ [] → _get_content engine self (.obj fs) = Except.ok (jsonDumps (.obj fs)))
      ∧ _get_content engine self (.obj []) = Except.ok ""
      ∧ _get_content engine self .null = Except.ok ""
      ∧ (∀ b, _get_content engine self (.bool b) = Except.ok (pyStr (.bool b)))
      ∧ (∀ n, _get_content engine self (.num n) = Except.ok (pyStr (.num n)))
      ∧ (∀ xs, _get_content engine self (.arr xs) = Except.ok (pyStr (.arr xs))))
    ∧ (∀ (engine : Engine) (self : JSONToDocument) (key : String) (q : CompiledQuery)
        (item r : JSONValue) (rs : List JSONValue),
        self.content_key = some key → self.is_content_key_jq_parsable = true →
        engine.compile key = Except.ok q → q item = Except.ok (r :: rs) →
        _get_content engine self item = Except.ok (coerceContent r)) := by
  constructor
  · intro engine self h
    refine ⟨?_, ?_, ?_, ?_, ?_, ?_, ?_⟩
    · intro s
      simp [_get_content, h, coerceContent, bind, Except.bind, pure, Except.pure]
    · intro fs hfs
      simp [_get_content, h, coerceContent, hfs, bind, Except.bind, pure, Except.pure]
    · simp [_get_content, h, coerceContent, bind, Except.bind, pure, Except.pure]
    · simp [_get_content, h, coerceContent, bind, Except.bind, pure, Except.pure]
    · intro b
      simp [_get_content, h, coerceContent, bind, Except.bind, pure, Except.pure]
    · intro n
      simp [_get_content, h, coerceContent, bind, Except.bind, pure, Except.pure]
    · intro xs
      simp [_get_content, h, coerceContent, bind, Except.bind, pure, Except.pure]
  · intro engine self key q item r rs hk hjq hcomp heval
    simp [_get_content, hk, hjq, hcomp, heval, bind, Except.bind, pure, Except.pure,
      Functor.map, Except.map]

/-- Witness for C3 at concrete inputs: all five coercion shapes and a
query-expression selector. -/
theorem c3_no_selector_coercion_witness :
    _get_content idEngine noSelectorComp (.str "hi") = Except.ok "hi"
    ∧ _get_content idEngine noSelectorComp (.obj [("a", .num 1)])
        = Except.ok (jsonDumps (.obj [("a", .num 1)]))
    ∧ _get_content idEngine noSelectorComp (.obj []) = Except.ok ""
    ∧ _get_content idEngine noSelectorComp .null = Except.ok ""
    ∧ _get_content idEngine noSelectorComp (.num 7) = Except.ok (pyStr (.num 7))
    ∧ _get_content idEngine ⟨elemsQuery, some ".foo", true, none⟩ (.num 7)
        = Except.ok (coerceContent (.num 7)) := by
  refine ⟨(c3_no_selector_coercion.1 idEngine noSelectorComp rfl).1 "hi",
    (c3_no_selector_coercion.1 idEngine noSelectorComp rfl).2.1 _ (by simp),
    (c3_no_selector_coercion.1 idEngine noSelectorComp rfl).2.2.1,
    (c3_no_selector_coercion.1 idEngine noSelectorComp rfl).2.2.2.1,
    (c3_no_selector_coercion.1 idEngine noSelectorComp rfl).2.2.2.2.2.1 7,
    c3_no_selector_coercion.2 idEngine _ ".foo" _ (.num 7) (.num 7) [] rfl rfl rfl rfl⟩

/-- C6: with a query-expression content selector, an empty result sequence
resolves the content to the empty string without raising, and a non-empty
one resolves it to the coercion of the first result only. -/
theorem c6_jq_selector_first_result :
    ∀ (engine : Engine) (self : JSONToDocument) (key : String) (q : CompiledQuery)
      (item : JSONValue),
      self.content_key = some key → self.is_content_key_jq_parsable = true →
      engine.compile key = Except.ok q →
      (q item = Except.ok [] → _get_content engine self item = Except.ok "")
      ∧ ∀ (r : JSONValue) (rs : List JSONValue), q item = Except.ok (r :: rs) →
          _get_content engine self item = Except.ok (coerceContent r) := by
  intro engine self key q item hk hjq hcomp
  constructor
  · intro heval
    simp [_get_content, hk, hjq, hcomp, heval, coerceContent, bind, Except.bind,
      pure, Except.pure, Functor.map, Except.map]
  · intro r rs heval
    simp [_get_content, hk, hjq, hcomp, heval, bind, Except.bind, pure, Except.pure,
      Functor.map, Except.map]

/-- Witness for C6 at concrete inputs: an engine whose query yields no
result, and one whose query yields two results of which the first is
taken. -/
theorem c6_jq_selector_first_result_witness :
    _get_content ⟨fun _ => Except.ok (fun _ => Except.ok [])⟩
        ⟨elemsQuery, some ".k", true, none⟩ (.num 3) = Except.ok ""
    ∧ _get_content ⟨fun _ => Except.ok (fun _ => Except.ok [.str "one", .str "two"])⟩
        ⟨elemsQuery, some ".k", true, none⟩ (.num 3)
        = Except.ok (coerceContent (.str "one")) := by
  constructor
  · exact (c6_jq_selector_first_result _ _ ".k" _ (.num 3) rfl rfl rfl).1 rfl
  · exact (c6_jq_selector_first_result _ _ ".k" _ (.num 3) rfl rfl rfl).2 _ _ rfl

/-- C7: metadata resolution in plain-field mode returns an empty mapping
when the field list is unset or empty; otherwise the output has exactly
the configured fields as keys in order, a field absent from the item
mapping to null rather than raising or being omitted; fields `["id",
"name"]` against `{"id": 1}` resolve to `{"id": 1, "name": null}`. -/
theorem c7_additional_metadata_plain_fields :
    (∀ (self : JSONToDocument) (record : JSONValue), self.additional_meta = none →
        _get_additional_metadata self record = Except.ok [])
    ∧ (∀ (self : JSONToDocument) (record : JSONValue), self.additional_meta = some [] →
        _get_additional_metadata self record = Except.ok [])
    ∧ (∀ (self : JSONToDocument) (fields : List String) (fs : Dict) (out : Dict),
        self.additional_meta = some fields → fields.Nodup →
        _get_additional_metadata self (.obj fs) = Except.ok out →
        out.map Prod.fst = fields
        ∧ ∀ f ∈ fields, dictGet out f = some ((dictGet fs f).getD .null))
    ∧ _get_additional_metadata metaFieldsComp (.obj [("id", .num 1)])
        = Except.ok [("id", .num 1), ("name", .null)] := by
  refine ⟨?_, ?_, ?_, rfl⟩
  · intro self record h
    simp [_get_additional_metadata, h]
  · intro self record h
    simp [_get_additional_metadata, h]
  · intro self fields fs out h hnd hout
    cases fields with
    | nil =>
      simp [_get_additional_metadata, h] at hout
      subst hout
      simp
    | cons f₀ rest =>
      simp only [_get_additional_metadata, h] at hout
      have hout' : (f₀ :: rest).foldl
          (fun acc f => dictInsert acc f ((dictGet fs f).getD .null)) [] = out := by
        simpa using hout
      constructor
      · rw [← hout']
        rw [keys_foldl_insert ((fun f => (dictGet fs f).getD .null)) (f₀ :: rest) []
          (by simp) hnd]
        simp
      · intro f hf
        rw [← hout']
        rw [dictGet_foldl_insert ((fun f => (dictGet fs f).getD .null)) (f₀ :: rest) [] f]
        simp [hf]

/-- Witness for C7 at concrete inputs: unset fields, empty fields, and
the two-field resolution of the spec scenario. -/
theorem c7_additional_metadata_plain_fields_witness :
    _get_additional_metadata noSelectorComp (.str "x") = Except.ok []
    ∧ _get_additional_metadata ⟨elemsQuery, none, false, some []⟩ (.str "x") = Except.ok []
    ∧ [("id", JSONValue.num 1), ("name", JSONValue.null)].map Prod.fst = ["id", "name"]
    ∧ dictGet [("id", JSONValue.num 1), ("name", JSONValue.null)] "name"
        = some ((dictGet [("id", JSONValue.num 1)] "name").getD .null) := by
  refine ⟨c7_additional_metadata_plain_fields.1 noSelectorComp _ rfl,
    c7_additional_metadata_plain_fields.2.1 _ _ rfl, ?_, ?_⟩
  · exact (c7_additional_metadata_plain_fields.2.2.1 metaFieldsComp ["id", "name"]
      [("id", .num 1)] _ rfl (by decide) rfl).1
  · exact (c7_additional_metadata_plain_fields.2.2.1 metaFieldsComp ["id", "name"]
      [("id", .num 1)] _ rfl (by decide) rfl).2 "name" (by simp)

end JSONConv

namespace JSONConv

/-! ### Claims about the orchestrator -/

/-- C1 counterexample: with plain content key `"text"` and one source whose
three matched items are `{"text":"a"}`, `{"oops":"b"}`, `{"text":"c"}`,
the second item's missing key drops the second AND third items: `run`
emits one Document, not the `3 - 1 = 2` the claim predicts. -/
theorem c1_counterexample :
    run idEngine plainKeyComp [mixedKeySrc] .noMeta
      = Except.ok ⟨[⟨"a", []⟩], [("mixed.json", "KeyError: text")]⟩
    ∧ ¬ ((run idEngine plainKeyComp [mixedKeySrc] .noMeta).toOption.elim 0
          (fun o => o.documents.length) = 3 - 1) := by
  exact ⟨rfl, by decide⟩

/-- C1 amended: an exception in the per-item pipeline drops that item and
all remaining items of the same source — the Documents already produced
from the source's earlier items are kept, one warning naming the source
and error is logged, and subsequent sources are unaffected; the source
emits as many Documents as there are items before the first failing
one. -/
theorem c1_amended_failure_truncates_source :
    ∀ (engine : Engine) (self : JSONToDocument) (bsMeta callerMeta : Dict)
      (pre : List JSONValue) (bad : JSONValue) (post : List JSONValue)
      (docs : List Document) (e : String),
      convertItems engine self bsMeta callerMeta pre = (docs, none) →
      itemDoc engine self bsMeta callerMeta bad = Except.error e →
      convertItems engine self bsMeta callerMeta (pre ++ bad :: post) = (docs, some e)
      ∧ ∀ (name : String) (pj : JSONValue) (rest : List (SourceRef × Dict)),
          self.jq_schema pj = Except.ok (pre ++ bad :: post) →
          processSources engine self
              ((⟨name, Except.ok ⟨Except.ok pj, bsMeta⟩⟩, callerMeta) :: rest)
            = ⟨docs ++ (processSources engine self rest).documents,
               (name, e) :: (processSources engine self rest).warnings⟩ := by
  intro engine self bsMeta callerMeta pre bad post docs e hpre hbad
  have hmain : convertItems engine self bsMeta callerMeta (pre ++ bad :: post)
      = (docs, some e) := by
    induction pre generalizing docs with
    | nil =>
      have hd : docs = [] := by
        simpa [convertItems] using hpre.symm
      subst hd
      simp [convertItems, hbad]
    | cons it pre' ih =>
      simp only [convertItems] at hpre ⊢
      cases hit : itemDoc engine self bsMeta callerMeta it with
      | error e' =>
        rw [hit] at hpre
        simp at hpre
      | ok d =>
        rw [hit] at hpre
        rcases hconv : convertItems engine self bsMeta callerMeta pre' with ⟨ds', err'⟩
        rw [hconv] at hpre
        simp only [Prod.mk.injEq] at hpre
        obtain ⟨hdocs, herr⟩ := hpre
        subst herr
        rw [List.append_eq, ih ds' hconv]
        simp [hdocs]
  refine ⟨hmain, ?_⟩
  intro name pj rest hjq
  simp [processSources, sourceStep, hjq, hmain]

/-- Witness for C1 amended, at the counterexample input: the first item
converts, the second fails, so the conversion stops with one Document
kept and the error reported, and a following healthy source still
contributes its Documents. -/
theorem c1_amended_failure_truncates_source_witness :
    convertItems idEngine plainKeyComp [] []
        ([.obj [("text", .str "a")]] ++ .obj [("oops", .str "b")] :: [.obj [("text", .str "c")]])
      = ([⟨"a", []⟩], some "KeyError: text")
    ∧ processSources idEngine plainKeyComp
        ((⟨"mixed.json", Except.ok ⟨Except.ok (.arr [.obj [("text", .str "a")],
            .obj [("oops", .str "b")], .obj [("text", .str "c")]]), []⟩⟩, [])
          :: [(readableSrc, [])])
      = ⟨[⟨"a", []⟩] ++ (processSources idEngine plainKeyComp [(readableSrc, [])]).documents,
         ("mixed.json", "KeyError: text")
           :: (processSources idEngine plainKeyComp [(readableSrc, [])]).warnings⟩ := by
  constructor
  · exact (c1_amended_failure_truncates_source idEngine plainKeyComp [] []
      [.obj [("text", .str "a")]] (.obj [("oops", .str "b")]) [.obj [("text", .str "c")]]
      [⟨"a", []⟩] "KeyError: text" rfl rfl).1
  · exact (c1_amended_failure_truncates_source idEngine plainKeyComp [] []
      [.obj [("text", .str "a")]] (.obj [("oops", .str "b")]) [.obj [("text", .str "c")]]
      [⟨"a", []⟩] "KeyError: text" rfl rfl).2 "mixed.json" _ _ rfl

/-- C4: a byte-resolution failure or a JSON parse failure skips exactly
that source with a warning naming the source and the error, Documents of
the surrounding sources being emitted unchanged; concretely, with one
unreadable source out of two, `run` returns only the readable source's
Documents and a warning naming the unreadable source. -/
theorem c4_source_failure_skips_only_that_source :
    (∀ (engine : Engine) (self : JSONToDocument) (before after : List (SourceRef × Dict))
        (name err : String) (cMeta : Dict),
        processSources engine self (before ++ (⟨name, Except.error err⟩, cMeta) :: after)
          = ⟨(processSources engine self before).documents
              ++ (processSources engine self after).documents,
             (processSources engine self before).warnings
              ++ (name, err) :: (processSources engine self after).warnings⟩)
    ∧ (∀ (engine : Engine) (self : JSONToDocument) (before after : List (SourceRef × Dict))
        (name err : String) (bsMeta cMeta : Dict),
        processSources engine self
            (before ++ (⟨name, Except.ok ⟨Except.error err, bsMeta⟩⟩, cMeta) :: after)
          = ⟨(processSources engine self before).documents
              ++ (processSources engine self after).documents,
             (processSources engine self before).warnings
              ++ (name, err) :: (processSources engine self after).warnings⟩)
    ∧ run idEngine noSelectorComp [readableSrc, unreadableSrc] .noMeta
        = Except.ok ⟨[⟨"hello", [("file_path", .str "good.json")]⟩],
                     [("missing.json", "FileNotFoundError")]⟩ := by
  refine ⟨?_, ?_, rfl⟩
  · intro engine self before after name err cMeta
    rw [processSources_append]
    simp [processSources, sourceStep]
  · intro engine self before after name err bsMeta cMeta
    rw [processSources_append]
    simp [processSources, sourceStep]

/-- C5: a per-source meta list whose length differs from the source count
makes `run` raise a configuration error before any source is processed
(no Documents, no warnings — the call returns only the error), while a
single meta mapping is broadcast to every source. -/
theorem c5_meta_mismatch_fatal_broadcast :
    (∀ (engine : Engine) (self : JSONToDocument) (sources : List SourceRef)
        (ds : List Dict), ds.length ≠ sources.length →
        run engine self sources (.perSource ds)
          = Except.error "ValueError: length of meta must match length of sources")
    ∧ (∀ (engine : Engine) (self : JSONToDocument) (sources : List SourceRef) (d : Dict),
        run engine self sources (.single d)
          = run engine self sources (.perSource (List.replicate sources.length d))) := by
  constructor
  · intro engine self sources ds h
    simp [run, normalize_metadata, h, bind, Except.bind]
  · intro engine self sources d
    simp [run, normalize_metadata]

/-- Witness for C5: a meta list of length 3 against 2 sources raises the
configuration error, and a single mapping behaves as its broadcast. -/
theorem c5_meta_mismatch_fatal_broadcast_witness :
    run idEngine noSelectorComp [readableSrc, twoItemSrc] (.perSource [[], [], []])
      = Except.error "ValueError: length of meta must match length of sources"
    ∧ run idEngine noSelectorComp [readableSrc, twoItemSrc] (.single [("s", .num 0)])
      = run idEngine noSelectorComp [readableSrc, twoItemSrc]
          (.perSource (List.replicate 2 [("s", .num 0)])) := by
  constructor
  · exact c5_meta_mismatch_fatal_broadcast.1 idEngine noSelectorComp _ _ (by decide)
  · exact c5_meta_mismatch_fatal_broadcast.2 idEngine noSelectorComp [readableSrc, twoItemSrc] _

end JSONConv

namespace JSONConv

/-- C8 counterexample: a run over one source with two matched items and
empty metadata layers everywhere produces Documents whose meta mappings
are empty — contrary to the claim, no zero-based sequence number (which
would be `0` and `1`) is injected into the merged metadata. -/
theorem c8_counterexample :
    run idEngine noSelectorComp [twoItemSrc] .noMeta
      = Except.ok ⟨[⟨"x", []⟩, ⟨"y", []⟩], []⟩ := rfl

/-- C8 amended: every produced Document's merged metadata is exactly the
merge of the three layers byte-source meta, caller-supplied per-source
meta and per-item resolved fields; no positional field such as a sequence
number is injected. -/
theorem c8_amended_no_injected_positional_fields :
    ∀ (engine : Engine) (self : JSONToDocument) (bsMeta cMeta : Dict)
      (items : List JSONValue) (docs : List Document) (err : Option String),
      convertItems engine self bsMeta cMeta items = (docs, err) →
      ∀ d ∈ docs, ∃ item ∈ items, ∃ additional,
        _get_additional_metadata self item = Except.ok additional ∧
        d.meta = merge3 bsMeta cMeta additional := by
  intro engine self bsMeta cMeta items
  induction items with
  | nil =>
    intro docs err hconv d hd
    simp only [convertItems] at hconv
    rw [Prod.mk.injEq] at hconv
    obtain ⟨h1, h2⟩ := hconv
    subst h1
    simp at hd
  | cons it rest ih =>
    intro docs err hconv d hd
    simp only [convertItems] at hconv
    cases hit : itemDoc engine self bsMeta cMeta it with
    | error e =>
      rw [hit] at hconv
      rw [Prod.mk.injEq] at hconv
      obtain ⟨h1, h2⟩ := hconv
      subst h1
      simp at hd
    | ok dd =>
      rw [hit] at hconv
      rcases hrest : convertItems engine self bsMeta cMeta rest with ⟨ds', err'⟩
      rw [hrest] at hconv
      simp only [Prod.mk.injEq] at hconv
      obtain ⟨hdocs, herr⟩ := hconv
      subst hdocs
      rcases List.mem_cons.mp hd with hdd | htail
      · subst hdd
        simp only [itemDoc, bind, Except.bind] at hit
        cases hc : _get_content engine self it with
        | error e =>
          rw [hc] at hit
          cases hit
        | ok content =>
          rw [hc] at hit
          cases ha : _get_additional_metadata self it with
          | error e =>
            rw [ha] at hit
            cases hit
          | ok additional =>
            rw [ha] at hit
            simp only [pure, Except.pure, Except.ok.injEq] at hit
            exact ⟨it, by simp, additional, ha, by rw [← hit]⟩
      · obtain ⟨item, hmem, additional, ha, hmeta⟩ := ih ds' err' hrest d htail
        exact ⟨item, by simp [hmem], additional, ha, hmeta⟩

/-- Witness for C8 amended, at a concrete conversion with non-trivial
layers: the single Document's meta is exactly the three-layer merge. -/
theorem c8_amended_no_injected_positional_fields_witness :
    ∃ item ∈ [JSONValue.obj [("id", JSONValue.num 1), ("text", JSONValue.str "x")]],
      ∃ additional, _get_additional_metadata metaFieldsComp item = Except.ok additional ∧
        (Document.mk "\x7b\"id\": 1, \"text\": \"x\"\x7d"
          (merge3 [("a", .num 1)] [("b", .num 2)]
            [("id", .num 1), ("name", .null)])).meta
          = merge3 [("a", .num 1)] [("b", .num 2)] additional := by
  exact c8_amended_no_injected_positional_fields idEngine metaFieldsComp
    [("a", .num 1)] [("b", .num 2)]
    [JSONValue.obj [("id", JSONValue.num 1), ("text", JSONValue.str "x")]] _ none rfl
    (Document.mk "\x7b\"id\": 1, \"text\": \"x\"\x7d"
      (merge3 [("a", .num 1)] [("b", .num 2)] [("id", .num 1), ("name", .null)]))
    (List.mem_singleton.mpr rfl)

/-- C9: the query expression is compiled inside the constructor, so a
malformed expression raises its compile error at construction time, and a
well-formed one is stored compiled — `run` never compiles the main
schema. -/
theorem c9_malformed_query_fails_at_construction :
    ∀ (engine : Engine) (s : String) (ck : Option String) (flag : Bool)
      (am : Option (List String)),
      (∀ e, engine.compile s = Except.error e → init engine s ck flag am = Except.error e)
      ∧ ∀ q, engine.compile s = Except.ok q →
          init engine s ck flag am = Except.ok ⟨q, ck, flag, am⟩ := by
  intro engine s ck flag am
  constructor
  · intro e h
    simp [init, h, bind, Except.bind]
  · intro q h
    simp [init, h, bind, Except.bind, pure, Except.pure]

/-- Witness for C9: the failing engine rejects `"..bad"` at construction,
and accepts another schema, storing its compilation. -/
theorem c9_malformed_query_fails_at_construction_witness :
    init failEngine "..bad" none false none = Except.error "jq compile error"
    ∧ init failEngine ".data[]" (some "k") true (some ["id"])
        = Except.ok ⟨fun v => Except.ok [v], some "k", true, some ["id"]⟩ := by
  constructor
  · exact (c9_malformed_query_fails_at_construction failEngine "..bad" none false none).1
      "jq compile error" rfl
  · exact (c9_malformed_query_fails_at_construction failEngine ".data[]"
      (some "k") true (some ["id"])).2 _ rfl

end JSONConv

namespace JSONConv

/-! ### Frame properties of the conversion loop over the store -/

theorem convertItemsH_frame (engine : Engine) (self : JSONToDocument)
    (bsAddr cAddr : Addr) :
    ∀ (items : List JSONValue) (h : Heap),
      h <+: (convertItemsH engine self bsAddr cAddr h items).1
      ∧ (∀ d ∈ (convertItemsH engine self bsAddr cAddr h items).2.1,
          h.length ≤ d.metaAddr
          ∧ d.metaAddr < (convertItemsH engine self bsAddr cAddr h items).1.length)
      ∧ ((convertItemsH engine self bsAddr cAddr h items).2.1.map
          DocumentH.metaAddr).Pairwise (· < ·) := by
  intro items
  induction items with
  | nil =>
    intro h
    simp [convertItemsH]
  | cons it rest ih =>
    intro h
    cases hc : _get_content engine self it with
    | error e => simp [convertItemsH, hc]
    | ok content =>
      cases ha : _get_additional_metadata self it with
      | error e => simp [convertItemsH, hc, ha]
      | ok additional =>
        obtain ⟨ihpre, ihbound, ihpair⟩ :=
          ih (h ++ [merge3 (readH h bsAddr) (readH h cAddr) additional])
        rcases hrec : convertItemsH engine self bsAddr cAddr
            (h ++ [merge3 (readH h bsAddr) (readH h cAddr) additional]) rest
          with ⟨h2, ds, err⟩
        rw [hrec] at ihpre ihbound ihpair
        try dsimp only at ihpre ihbound ihpair
        simp only [convertItemsH, hc, ha, allocH, hrec]
        try dsimp only
        have hlen : h.length + 1 ≤ h2.length := by
          have hle := ihpre.length_le
          simpa using hle
        refine ⟨?_, ?_, ?_⟩
        · exact (List.prefix_append h _).trans ihpre
        · intro d hd
          rcases List.mem_cons.mp hd with hdd | htail
          · subst hdd
            refine ⟨le_refl _, ?_⟩
            show List.length h < List.length h2
            omega
          · obtain ⟨hlow, hhigh⟩ := ihbound d htail
            simp only [List.length_append, List.length_singleton] at hlow
            exact ⟨by omega, hhigh⟩
        · simp only [List.map_cons]
          rw [List.pairwise_cons]
          refine ⟨?_, ihpair⟩
          intro a hmem
          obtain ⟨d, hd, hda⟩ := List.mem_map.mp hmem
          obtain ⟨hlow, _⟩ := ihbound d hd
          simp only [List.length_append, List.length_singleton] at hlow
          show List.length h < a
          omega

theorem sourceStepH_frame (engine : Engine) (self : JSONToDocument)
    (src : SourceRefH) (cAddr : Addr) (h : Heap) :
    h <+: (sourceStepH engine self h src cAddr).1
    ∧ (∀ d ∈ (sourceStepH engine self h src cAddr).2.1,
        h.length ≤ d.metaAddr
        ∧ d.metaAddr < (sourceStepH engine self h src cAddr).1.length)
    ∧ ((sourceStepH engine self h src cAddr).2.1.map
        DocumentH.metaAddr).Pairwise (· < ·) := by
  cases hres : src.resolve with
  | error e => simp [sourceStepH, hres]
  | ok bs =>
    cases hp : bs.parsed with
    | error e => simp [sourceStepH, hres, hp]
    | ok j =>
      cases hq : self.jq_schema j with
      | error e => simp [sourceStepH, hres, hp, hq]
      | ok items =>
        obtain ⟨hpre, hbound, hpair⟩ :=
          convertItemsH_frame engine self bs.metaAddr cAddr items h
        rcases hrec : convertItemsH engine self bs.metaAddr cAddr h items with ⟨h2, ds, err⟩
        rw [hrec] at hpre hbound hpair
        try dsimp only at hpre hbound hpair
        cases err with
        | none =>
          simp only [sourceStepH, hres, hp, hq, hrec]
          exact ⟨hpre, hbound, hpair⟩
        | some e =>
          simp only [sourceStepH, hres, hp, hq, hrec]
          exact ⟨hpre, hbound, hpair⟩

theorem processSourcesH_frame (engine : Engine) (self : JSONToDocument) :
    ∀ (srcs : List (SourceRefH × Addr)) (h : Heap),
      h <+: (processSourcesH engine self h srcs).1
      ∧ (∀ d ∈ (processSourcesH engine self h srcs).2.1,
          h.length ≤ d.metaAddr
          ∧ d.metaAddr < (processSourcesH engine self h srcs).1.length)
      ∧ ((processSourcesH engine self h srcs).2.1.map
          DocumentH.metaAddr).Pairwise (· < ·) := by
  intro srcs
  induction srcs with
  | nil =>
    intro h
    simp [processSourcesH]
  | cons hd rest ih =>
    intro h
    obtain ⟨src, cAddr⟩ := hd
    obtain ⟨spre, sbound, spair⟩ := sourceStepH_frame engine self src cAddr h
    rcases hstep : sourceStepH engine self h src cAddr with ⟨h1, docs, ws⟩
    rw [hstep] at spre sbound spair
    try dsimp only at spre sbound spair
    obtain ⟨rpre, rbound, rpair⟩ := ih h1
    rcases hrest : processSourcesH engine self h1 rest with ⟨h2, ds2, ws2⟩
    rw [hrest] at rpre rbound rpair
    try dsimp only at rpre rbound rpair
    simp only [processSourcesH, hstep, hrest]
    try dsimp only
    have h1len : h1.length ≤ h2.length := rpre.length_le
    have hlen : h.length ≤ h1.length := spre.length_le
    refine ⟨spre.trans rpre, ?_, ?_⟩
    · intro d hdm
      rcases List.mem_append.mp hdm with hin | hin
      · obtain ⟨hlow, hhigh⟩ := sbound d hin
        exact ⟨hlow, by omega⟩
      · obtain ⟨hlow, hhigh⟩ := rbound d hin
        exact ⟨by omega, hhigh⟩
    · rw [List.map_append, List.pairwise_append]
      refine ⟨spair, rpair, ?_⟩
      intro a ha b hb
      obtain ⟨da, hda, hdaa⟩ := List.mem_map.mp ha
      obtain ⟨db, hdb, hdbb⟩ := List.mem_map.mp hb
      obtain ⟨_, hahigh⟩ := sbound da hda
      obtain ⟨hblow, _⟩ := rbound db hdb
      show a < b
      omega

/-- C10: the source loop of `run` never writes to any pre-existing dict
object — the initial store is a prefix of the final store, so the
caller-supplied meta dicts and the byte sources' meta dicts are unchanged
after the call — and every produced Document's meta is a freshly
allocated dict, no two Documents sharing the same meta object. -/
theorem c10_run_mutates_nothing_fresh_metas :
    ∀ (engine : Engine) (self : JSONToDocument) (h : Heap)
      (srcs : List (SourceRefH × Addr)),
      h <+: (processSourcesH engine self h srcs).1
      ∧ (∀ d ∈ (processSourcesH engine self h srcs).2.1,
          h.length ≤ d.metaAddr
          ∧ d.metaAddr < (processSourcesH engine self h srcs).1.length)
      ∧ ((processSourcesH engine self h srcs).2.1.map DocumentH.metaAddr).Nodup := by
  intro engine self h srcs
  obtain ⟨hpre, hbound, hpair⟩ := processSourcesH_frame engine self srcs h
  exact ⟨hpre, hbound, hpair.imp Nat.ne_of_lt⟩

/-- Witness for C10 at a concrete store and source list: two input dicts
at addresses 0 and 1, one source of two items; the final store keeps the
two input dicts unchanged and the two Documents hold the distinct fresh
addresses 2 and 3. -/
theorem c10_run_mutates_nothing_fresh_metas_witness :
    ([[("a", JSONValue.num 1)], [("b", JSONValue.num 2)]] : Heap)
      <+: (processSourcesH idEngine noSelectorComp
            [[("a", JSONValue.num 1)], [("b", JSONValue.num 2)]]
            [(⟨"pair.json", Except.ok ⟨Except.ok (.arr [.str "x", .str "y"]), 0⟩⟩, 1)]).1
    ∧ (∀ d ∈ (processSourcesH idEngine noSelectorComp
            [[("a", JSONValue.num 1)], [("b", JSONValue.num 2)]]
            [(⟨"pair.json", Except.ok ⟨Except.ok (.arr [.str "x", .str "y"]), 0⟩⟩, 1)]).2.1,
          2 ≤ d.metaAddr
          ∧ d.metaAddr < (processSourcesH idEngine noSelectorComp
              [[("a", JSONValue.num 1)], [("b", JSONValue.num 2)]]
              [(⟨"pair.json", Except.ok ⟨Except.ok (.arr [.str "x", .str "y"]), 0⟩⟩, 1)]).1.length)
    ∧ ((processSourcesH idEngine noSelectorComp
          [[("a", JSONValue.num 1)], [("b", JSONValue.num 2)]]
          [(⟨"pair.json", Except.ok ⟨Except.ok (.arr [.str "x", .str "y"]), 0⟩⟩, 1)]).2.1.map
            DocumentH.metaAddr).Nodup := by
  exact c10_run_mutates_nothing_fresh_metas idEngine noSelectorComp
    [[("a", JSONValue.num 1)], [("b", JSONValue.num 2)]]
    [(⟨"pair.json", Except.ok ⟨Except.ok (.arr [.str "x", .str "y"]), 0⟩⟩, 1)]

end JSONConv
